import Mathlib

set_option maxHeartbeats 2000000

/-!
Shallow embedding of the taxi-demand backfill pipeline.

The repository's own code is the notebook function `fetch_batch_raw_data`
(src/unnamed/part_000, cells 7): it parses/validates a date window, shifts it
back by 52 weeks, loads one or two monthly tables from the external loader
`load_and_process_taxi_data`, filters them against the historical window,
relabels the timestamps forward by 52 weeks and sorts the result by
(pickup_location_id, pickup_datetime).

Timestamps are modelled as integer seconds; the day number of a timestamp is
its floor-quotient by 86400 and equals the proleptic-Gregorian ordinal of the
date (1 = 0001-01-01), exactly as in CPython's `datetime` module.  The
calendar conversions `toOrdinal` / `ord2ymd` below mirror CPython's
`_ymd2ord` / `_ord2ymd` (Modules/_datetimemodule.c resp. Lib/datetime.py):
the same four-fold divmod cascade by 146097/36524/1461/365 with the n1 = 4 /
n100 = 4 corrections and the `(n + 50) >> 5` month guess.  The month-offset
table `_DAYS_BEFORE_MONTH` is rendered by the equivalent closed form
`(153 * (m - 3) + 2) / 5 + 59` for March..December.
-/

def isLeap (y : Int) : Bool := y % 4 = 0 ∧ (y % 100 ≠ 0 ∨ y % 400 = 0)

def leapInd (y : Int) : Int := if isLeap y then 1 else 0

def daysBeforeYear (y : Int) : Int :=
  365 * (y - 1) + (y - 1) / 4 - (y - 1) / 100 + (y - 1) / 400

def daysBeforeMonth (y m : Int) : Int :=
  if m ≤ 2 then 31 * (m - 1) else (153 * (m - 3) + 2) / 5 + 59 + leapInd y

def toOrdinal (y m d : Int) : Int := daysBeforeYear y + daysBeforeMonth y m + d

def daysInMonth (y m : Int) : Int :=
  if m = 2 then 28 + leapInd y
  else if m = 4 ∨ m = 6 ∨ m = 9 ∨ m = 11 then 30 else 31

def n400v (o : Int) : Int := (o - 1) / 146097

def n100v (o : Int) : Int := ((o - 1) % 146097) / 36524

def n4v (o : Int) : Int := ((o - 1) % 146097 % 36524) / 1461

def n1v (o : Int) : Int := ((o - 1) % 146097 % 36524 % 1461) / 365

def dy0 (o : Int) : Int := (o - 1) % 146097 % 36524 % 1461 % 365

def yearPre (o : Int) : Int := 400 * n400v o + 100 * n100v o + 4 * n4v o + n1v o + 1

def ord2ymd (o : Int) : Int × Int × Int :=
  if n1v o = 4 ∨ n100v o = 4 then (yearPre o - 1, 12, 31)
  else
    let m0 := (dy0 o + 50) / 32
    let month := if dy0 o < daysBeforeMonth (yearPre o) m0 then m0 - 1 else m0
    (yearPre o, month, dy0 o - daysBeforeMonth (yearPre o) month + 1)

/-- Seconds-since-origin timestamp of a wall-clock datetime, mirroring a
`datetime(y, m, d, hh, mm, ss)` value. -/
def tsOf (y m d hh mm ss : Int) : Int :=
  toOrdinal y m d * 86400 + hh * 3600 + mm * 60 + ss

/-- Calendar year of a timestamp, mirroring `datetime.year`. -/
def yearOfTs (t : Int) : Int := (ord2ymd (t / 86400)).1

/-- Calendar month of a timestamp, mirroring `datetime.month`. -/
def monthOfTs (t : Int) : Int := (ord2ymd (t / 86400)).2.1

/-!
Model of `datetime.fromisoformat` (external standard library), on the
`YYYY-MM-DD` and `YYYY-MM-DD{space or T}HH:MM:SS` shapes used by the
callers; any other string is a parse failure (Python raises `ValueError`).
-/

def digitVal (c : Char) : Option Int :=
  if c.isDigit then some ((c.toNat : Int) - 48) else none

def read2 : List Char → Option (Int × List Char)
  | c1 :: c2 :: rest => do
      let a ← digitVal c1
      let b ← digitVal c2
      some (10 * a + b, rest)
  | _ => none

def read4 (cs : List Char) : Option (Int × List Char) := do
  let (hi, r1) ← read2 cs
  let (lo, r2) ← read2 r1
  some (100 * hi + lo, r2)

def expectChar (c : Char) : List Char → Option (List Char)
  | x :: rest => if x = c then some rest else none
  | [] => none

def readTime (cs : List Char) : Option Int := do
  let (hh, r1) ← read2 cs
  let r2 ← expectChar ':' r1
  let (mm, r3) ← read2 r2
  let r4 ← expectChar ':' r3
  let (ss, r5) ← read2 r4
  if r5 = [] ∧ hh < 24 ∧ mm < 60 ∧ ss < 60 then some (hh * 3600 + mm * 60 + ss)
  else none

def fromisoformat (s : String) : Option Int := do
  let (y, r1) ← read4 s.data
  let r2 ← expectChar '-' r1
  let (m, r3) ← read2 r2
  let r4 ← expectChar '-' r3
  let (d, r5) ← read2 r4
  if 1 ≤ y ∧ 1 ≤ m ∧ m ≤ 12 ∧ 1 ≤ d ∧ d ≤ daysInMonth y m then
    match r5 with
    | [] => some (toOrdinal y m d * 86400)
    | sep :: rest =>
      if sep = ' ' ∨ sep = 'T' then do
        let tod ← readTime rest
        some (toOrdinal y m d * 86400 + tod)
      else none
  else none

/-!
Embedding of `fetch_batch_raw_data` (src/unnamed/part_000).

A raw-data row is (pickup_datetime, pickup_location_id); the external loader
`load_and_process_taxi_data(year=.., months=[..])` is a parameter of type
`Int → Int → List Event`.  The returned pair's second component records the
loader invocations the run has issued, in order.
-/

structure Event where
  pickup_datetime : Int
  pickup_location_id : Int
deriving DecidableEq, Repr

inductive FetchError where
  | invalidArgument
deriving DecidableEq, Repr

instance {ε α : Type} [DecidableEq ε] [DecidableEq α] : DecidableEq (Except ε α)
  | .error a, .error b =>
    if h : a = b then isTrue (by rw [h])
    else isFalse (by intro hc; injection hc with h2; exact h h2)
  | .error _, .ok _ => isFalse (by intro hc; injection hc)
  | .ok _, .error _ => isFalse (by intro hc; injection hc)
  | .ok a, .ok b =>
    if h : a = b then isTrue (by rw [h])
    else isFalse (by intro hc; injection hc with h2; exact h h2)

/-- A `from_date`/`to_date` argument: either a datetime or an ISO string,
mirroring the `Union[datetime, str]` signature. -/
inductive DateInput where
  | dt (t : Int)
  | str (s : String)

/-- String inputs go through `datetime.fromisoformat`; datetime inputs are
used as given (lines 133-136 of the notebook cell). -/
def resolveDate : DateInput → Option Int
  | .dt t => some t
  | .str s => fromisoformat s

/-- The hardcoded `timedelta(weeks=52)` offset of the notebook (lines 145-146
and 160). -/
def weeksOffset : Int := 52

def shiftBackWeeks (w x : Int) : Int := x - w * 7 * 86400

def shiftForwardWeeks (w x : Int) : Int := x + w * 7 * 86400

def shiftDelta : Int := weeksOffset * 7 * 86400

/-- Lines 145-146: `historical_from_date = from_date - timedelta(weeks=52)`,
`historical_to_date = to_date - timedelta(weeks=52)`. -/
def historicalBounds (f t : Int) : Int × Int :=
  (shiftBackWeeks weeksOffset f, shiftBackWeeks weeksOffset t)

/-- Line 160: `rides['pickup_datetime'] += timedelta(weeks=52)`. -/
def relabelEvent (e : Event) : Event :=
  { e with pickup_datetime := shiftForwardWeeks weeksOffset e.pickup_datetime }

/-- Sort key of line 163: `sort_values(by=['pickup_location_id',
'pickup_datetime'])`, ascending. -/
def rideLe (e1 e2 : Event) : Prop :=
  e1.pickup_location_id < e2.pickup_location_id ∨
    (e1.pickup_location_id = e2.pickup_location_id ∧
      e1.pickup_datetime ≤ e2.pickup_datetime)

instance : DecidableRel rideLe := fun e1 e2 => by
  unfold rideLe
  exact inferInstance

instance : IsTotal Event rideLe where
  total e1 e2 := by unfold rideLe; omega

instance : IsTrans Event rideLe where
  trans e1 e2 e3 := by unfold rideLe; omega

def sortRides (l : List Event) : List Event := List.insertionSort rideLe l

/-- Lines 148-158: load the month of `historical_from_date`, keep rows at or
after it; if the month of `historical_to_date` differs, also load that month,
keep rows strictly before `historical_to_date`, and concatenate.  In the
single-month branch no upper filter is applied (`rides = rides_from`). -/
def selectHistorical (load : Int → Int → List Event) (hf ht : Int) : List Event :=
  let ridesFrom := (load (yearOfTs hf) (monthOfTs hf)).filter
    (fun e => hf ≤ e.pickup_datetime)
  if monthOfTs ht ≠ monthOfTs hf then
    ridesFrom ++ (load (yearOfTs ht) (monthOfTs ht)).filter
      (fun e => e.pickup_datetime < ht)
  else ridesFrom

/-- The loader invocations issued by the body of lines 148-158, in order. -/
def loaderCalls (hf ht : Int) : List (Int × Int) :=
  if monthOfTs ht ≠ monthOfTs hf then
    [(yearOfTs hf, monthOfTs hf), (yearOfTs ht, monthOfTs ht)]
  else [(yearOfTs hf, monthOfTs hf)]

/-- Embedding of `fetch_batch_raw_data`.  The first component is the result
(`ValueError` becomes `FetchError.invalidArgument`); the second lists the
loader calls the run issued before returning. -/
def fetchBatchRawData (load : Int → Int → List Event) (from_date to_date : DateInput) :
    Except FetchError (List Event) × List (Int × Int) :=
  match resolveDate from_date with
  | none => (.error .invalidArgument, [])
  | some f =>
    match resolveDate to_date with
    | none => (.error .invalidArgument, [])
    | some t =>
      if f < t then
        let hf := (historicalBounds f t).1
        let ht := (historicalBounds f t).2
        (.ok (sortRides ((selectHistorical load hf ht).map relabelEvent)),
          loaderCalls hf ht)
      else (.error .invalidArgument, [])

/-- A one-event loader for concrete runs: the 2024-03 table holds a single
pickup on 2024-03-20 12:00:00 at location 5. -/
def c3Loader : Int → Int → List Event :=
  fun y m => if y = 2024 ∧ m = 3 then [⟨tsOf 2024 3 20 12 0 0, 5⟩] else []

/-!
Modelled from the spec: `transform_raw_data_into_ts_data` (imported from
`src.data_utils`, whose implementation is not part of this repository; only
its import and call site are, src/unnamed/part_000 lines 323-324).  The
definition below follows spec section 4.4 word by word: truncate timestamps
to the hour, take the dense cross-product of every hour in
[min_hour, max_hour] with every distinct location_id, count events per
bucket with zero-filling, emit rows sorted by (location_id, hour), return an
empty series for empty input, and fail with InvalidArgument when a required
column is missing.
-/

structure TsRow where
  pickup_hour : Int
  pickup_location_id : Int
  rides : Nat
deriving DecidableEq, Repr

/-- An input table: its column names and its rows (extra columns beyond the
two required ones carry no information the transform reads). -/
structure RawFrame where
  cols : List String
  rows : List Event

def requiredCols : List String := ["pickup_datetime", "pickup_location_id"]

/-- Truncation of a timestamp down to the start of its hour (`floor('h')`). -/
def floorHour (t : Int) : Int := 3600 * (t / 3600)

def eventKey (e : Event) : Int × Int :=
  (floorHour e.pickup_datetime, e.pickup_location_id)

def bucketCount (rows : List Event) (h ℓ : Int) : Nat :=
  rows.countP (fun e => eventKey e = (h, ℓ))

/-- `start` and the `n` following hour marks, each one hour apart. -/
def hourSteps : Nat → Int → List Int
  | 0, start => [start]
  | n + 1, start => start :: hourSteps n (start + 3600)

/-- Every hour from `minH` to `maxH` inclusive, stepped by exactly one hour. -/
def hourGrid (minH maxH : Int) : List Int :=
  hourSteps ((maxH - minH).toNat / 3600) minH

def hoursOf (rows : List Event) : List Int :=
  rows.map (fun e => floorHour e.pickup_datetime)

/-- The distinct location ids observed anywhere in the input, ascending. -/
def locList (rows : List Event) : List Int :=
  List.insertionSort (· ≤ ·) (rows.map (fun e => e.pickup_location_id)).dedup

def minHourOf (e : Event) (es : List Event) : Int :=
  (hoursOf es).foldl min (floorHour e.pickup_datetime)

def maxHourOf (e : Event) (es : List Event) : Int :=
  (hoursOf es).foldl max (floorHour e.pickup_datetime)

def aggregateRows : List Event → List TsRow
  | [] => []
  | e :: es =>
    (locList (e :: es)).flatMap fun ℓ =>
      (hourGrid (minHourOf e es) (maxHourOf e es)).map fun h =>
        ⟨h, ℓ, bucketCount (e :: es) h ℓ⟩

def transform_raw_data_into_ts_data (df : RawFrame) : Except FetchError (List TsRow) :=
  if requiredCols.all (fun c => df.cols.contains c) then .ok (aggregateRows df.rows)
  else .error .invalidArgument

/-- Strict row order contracted for the aggregated output: ascending by
(location_id, hour). -/
def rowLt (r1 r2 : TsRow) : Prop :=
  r1.pickup_location_id < r2.pickup_location_id ∨
    (r1.pickup_location_id = r2.pickup_location_id ∧ r1.pickup_hour < r2.pickup_hour)

/-- Declaratively phrased Window Shifter of spec section 4.1: both bounds
moved earlier by exactly `weeks * 7` days.  Used to compare the notebook's
hardcoded shift against the spec's parametric contract. -/
def windowShiftSpec (f t w : Int) : Int × Int :=
  (f - w * 7 * 86400, t - w * 7 * 86400)

/-!
Correctness of the calendar model: `ord2ymd` produces a valid date that
`toOrdinal` maps back to the ordinal, and the (year, month) index is
monotone in the ordinal.
-/

theorem leapInd_char (y : Int) :
    (leapInd y = 1 ∧ y % 4 = 0 ∧ (y % 100 ≠ 0 ∨ y % 400 = 0)) ∨
      (leapInd y = 0 ∧ ¬(y % 4 = 0 ∧ (y % 100 ≠ 0 ∨ y % 400 = 0))) := by
  unfold leapInd isLeap
  split
  · next h =>
    simp only [decide_eq_true_eq, Bool.and_eq_true, Bool.or_eq_true, decide_not,
      Bool.not_eq_true', decide_eq_false_iff_not] at h
    left
    exact ⟨rfl, by tauto⟩
  · next h =>
    simp only [decide_eq_true_eq, Bool.and_eq_true, Bool.or_eq_true, decide_not,
      Bool.not_eq_true', decide_eq_false_iff_not] at h
    right
    exact ⟨rfl, by tauto⟩

theorem stage_correction (o a b c d dy : Int)
    (h : o - 1 = 146097*a + 36524*b + 1461*c + 365*d + dy)
    (hbr : 0 ≤ 36524*b + 1461*c + 365*d + dy ∧ 36524*b + 1461*c + 365*d + dy < 146097)
    (hbc : 0 ≤ 1461*c + 365*d + dy ∧ 1461*c + 365*d + dy < 36524)
    (hbd : 0 ≤ 365*d + dy ∧ 365*d + dy < 1461)
    (hdy : 0 ≤ dy ∧ dy < 365)
    (hcorr : d = 4 ∨ b = 4) :
    toOrdinal (400*a + 100*b + 4*c + d) 12 31 = o := by
  obtain ⟨Y, hY⟩ : ∃ Y, 400*a + 100*b + 4*c + d = Y := ⟨_, rfl⟩
  rw [hY]
  have hl := leapInd_char Y
  unfold toOrdinal daysBeforeYear daysBeforeMonth
  norm_num
  have e1 : (Y - 1) / 4 = 100*a + 25*b + c + (d - 1) / 4 := by omega
  have e2 : (Y - 1) / 100 = 4*a + b + (4*c + d - 1) / 100 := by omega
  have e3 : (Y - 1) / 400 = a + (100*b + 4*c + d - 1) / 400 := by omega
  rcases hcorr with h4 | h4 <;> omega

theorem leap_resolve (a b c d Y L : Int)
    (hY : 400*a + 100*b + 4*c + d + 1 = Y)
    (hb : 0 ≤ b ∧ b ≤ 3) (hc : 0 ≤ c ∧ c ≤ 24) (hd : 0 ≤ d ∧ d ≤ 3)
    (hl : (L = 1 ∧ Y % 4 = 0 ∧ (Y % 100 ≠ 0 ∨ Y % 400 = 0)) ∨
      (L = 0 ∧ ¬(Y % 4 = 0 ∧ (Y % 100 ≠ 0 ∨ Y % 400 = 0)))) :
    (L = 1 ∧ d = 3 ∧ (c ≠ 24 ∨ b = 3)) ∨ (L = 0 ∧ ¬(d = 3 ∧ (c ≠ 24 ∨ b = 3))) := by
  omega

theorem yearDiv_resolve (a b c d Y : Int)
    (hY : 400*a + 100*b + 4*c + d + 1 = Y)
    (hb : 0 ≤ b ∧ b ≤ 3) (hc : 0 ≤ c ∧ c ≤ 24) (hd : 0 ≤ d ∧ d ≤ 3) :
    (Y - 1) / 4 = 100*a + 25*b + c ∧ (Y - 1) / 100 = 4*a + b ∧ (Y - 1) / 400 = a := by
  omega

theorem stage_month (o a b c d dy Y : Int)
    (hY : 400*a + 100*b + 4*c + d + 1 = Y)
    (h : o - 1 = 146097*a + 36524*b + 1461*c + 365*d + dy)
    (hbr : 0 ≤ 36524*b + 1461*c + 365*d + dy ∧ 36524*b + 1461*c + 365*d + dy < 146097)
    (hbc : 0 ≤ 1461*c + 365*d + dy ∧ 1461*c + 365*d + dy < 36524)
    (hbd : 0 ≤ 365*d + dy ∧ 365*d + dy < 1461)
    (hdy : 0 ≤ dy ∧ dy < 365)
    (hncorr : ¬(d = 4 ∨ b = 4)) :
    1 ≤ (if dy < daysBeforeMonth Y ((dy + 50) / 32)
         then (dy + 50) / 32 - 1 else (dy + 50) / 32) ∧
    (if dy < daysBeforeMonth Y ((dy + 50) / 32)
         then (dy + 50) / 32 - 1 else (dy + 50) / 32) ≤ 12 ∧
    1 ≤ dy - daysBeforeMonth Y
        (if dy < daysBeforeMonth Y ((dy + 50) / 32)
         then (dy + 50) / 32 - 1 else (dy + 50) / 32) + 1 ∧
    dy - daysBeforeMonth Y
        (if dy < daysBeforeMonth Y ((dy + 50) / 32)
         then (dy + 50) / 32 - 1 else (dy + 50) / 32) + 1 ≤
      daysInMonth Y
        (if dy < daysBeforeMonth Y ((dy + 50) / 32)
         then (dy + 50) / 32 - 1 else (dy + 50) / 32) ∧
    toOrdinal Y
        (if dy < daysBeforeMonth Y ((dy + 50) / 32)
         then (dy + 50) / 32 - 1 else (dy + 50) / 32)
        (dy - daysBeforeMonth Y
          (if dy < daysBeforeMonth Y ((dy + 50) / 32)
           then (dy + 50) / 32 - 1 else (dy + 50) / 32) + 1) = o := by
  have hranges : (0 ≤ b ∧ b ≤ 3) ∧ (0 ≤ c ∧ c ≤ 24) ∧ (0 ≤ d ∧ d ≤ 3) := by omega
  obtain ⟨hrb, hrc, hrd⟩ := hranges
  obtain ⟨L, hL⟩ : ∃ L, leapInd Y = L := ⟨_, rfl⟩
  have hl := leapInd_char Y
  rw [hL] at hl
  have hleap := leap_resolve a b c d Y L hY hrb hrc hrd hl
  obtain ⟨e1, e2, e3⟩ := yearDiv_resolve a b c d Y hY hrb hrc hrd
  clear hl hbr hbc hbd hncorr
  unfold toOrdinal daysBeforeYear daysBeforeMonth daysInMonth
  rw [hL]
  obtain ⟨m0, hm0⟩ : ∃ m0, (dy + 50) / 32 = m0 := ⟨_, rfl⟩
  rw [hm0]
  have hm0a : 1 ≤ m0 := by omega
  have hm0b : m0 ≤ 12 := by omega
  interval_cases m0 <;> norm_num <;> split <;> norm_num <;> omega

theorem stages (o : Int) :
    o - 1 = 146097*(n400v o) + 36524*(n100v o) + 1461*(n4v o) + 365*(n1v o) + dy0 o ∧
    (0 ≤ 36524*(n100v o) + 1461*(n4v o) + 365*(n1v o) + dy0 o ∧
      36524*(n100v o) + 1461*(n4v o) + 365*(n1v o) + dy0 o < 146097) ∧
    (0 ≤ 1461*(n4v o) + 365*(n1v o) + dy0 o ∧ 1461*(n4v o) + 365*(n1v o) + dy0 o < 36524) ∧
    (0 ≤ 365*(n1v o) + dy0 o ∧ 365*(n1v o) + dy0 o < 1461) ∧
    (0 ≤ dy0 o ∧ dy0 o < 365) := by
  unfold n400v n100v n4v n1v dy0
  omega

theorem ord2ymd_valid (o : Int) :
    1 ≤ (ord2ymd o).2.1 ∧ (ord2ymd o).2.1 ≤ 12 ∧
    1 ≤ (ord2ymd o).2.2 ∧ (ord2ymd o).2.2 ≤ daysInMonth (ord2ymd o).1 (ord2ymd o).2.1 ∧
    toOrdinal (ord2ymd o).1 (ord2ymd o).2.1 (ord2ymd o).2.2 = o := by
  obtain ⟨h, hbr, hbc, hbd, hdy⟩ := stages o
  unfold ord2ymd
  split
  · next hcorr =>
    dsimp only
    refine ⟨by norm_num, by norm_num, by norm_num, ?_, ?_⟩
    · have : daysInMonth (yearPre o - 1) 12 = 31 := by
        unfold daysInMonth
        norm_num
      rw [this]
    · have hy : yearPre o - 1 = 400*(n400v o) + 100*(n100v o) + 4*(n4v o) + n1v o := by
        unfold yearPre; ring
      rw [hy]
      exact stage_correction o _ _ _ _ _ h hbr hbc hbd hdy hcorr
  · next hncorr =>
    dsimp only
    have hY : 400*(n400v o) + 100*(n100v o) + 4*(n4v o) + n1v o + 1 = yearPre o := by
      unfold yearPre; ring
    exact stage_month o _ _ _ _ _ _ hY h hbr hbc hbd hdy hncorr

theorem leapInd_bounds (y : Int) : 0 ≤ leapInd y ∧ leapInd y ≤ 1 := by
  unfold leapInd
  split <;> omega

theorem daysInMonth_bounds (y m : Int) :
    28 ≤ daysInMonth y m ∧ daysInMonth y m ≤ 31 := by
  have := leapInd_bounds y
  unfold daysInMonth
  split
  · omega
  · split <;> omega

theorem toOrdinal_day (y m d : Int) : toOrdinal y m d = toOrdinal y m 1 + d - 1 := by
  unfold toOrdinal
  ring

theorem monthSucc (y m : Int) (h1 : 1 ≤ m) (h2 : m ≤ 12) :
    toOrdinal (if m = 12 then y + 1 else y) (if m = 12 then 1 else m + 1) 1 =
      toOrdinal y m 1 + daysInMonth y m := by
  obtain ⟨L, hL⟩ : ∃ L, leapInd y = L := ⟨_, rfl⟩
  have hl := leapInd_char y
  rw [hL] at hl
  by_cases hm : m = 12
  · subst hm
    norm_num
    obtain ⟨L2, hL2⟩ : ∃ L2, leapInd (y + 1) = L2 := ⟨_, rfl⟩
    unfold toOrdinal daysBeforeYear daysBeforeMonth daysInMonth
    rw [hL, hL2]
    norm_num
    omega
  · rw [if_neg hm, if_neg hm]
    unfold toOrdinal daysBeforeYear daysBeforeMonth daysInMonth
    rw [hL]
    have hm11 : m ≤ 11 := by omega
    interval_cases m <;> norm_num <;> omega

def sIdx (k : Int) : Int := toOrdinal (k / 12) (k % 12 + 1) 1

theorem sIdx_step (k : Int) :
    sIdx (k + 1) = sIdx k + daysInMonth (k / 12) (k % 12 + 1) := by
  have h := monthSucc (k / 12) (k % 12 + 1) (by omega) (by omega)
  unfold sIdx
  split at h
  · next h12 =>
    have e1 : (k + 1) / 12 = k / 12 + 1 := by omega
    have e2 : (k + 1) % 12 + 1 = 1 := by omega
    rw [e1, e2, h]
  · next h12 =>
    have e1 : (k + 1) / 12 = k / 12 := by omega
    have e2 : (k + 1) % 12 + 1 = k % 12 + 1 + 1 := by omega
    rw [e1, e2, h]

theorem sIdx_mono {k k' : Int} (h : k ≤ k') : sIdx k ≤ sIdx k' := by
  refine @Int.le_induction (fun n => sIdx k ≤ sIdx n) k ?_ ?_ k' h
  · exact le_refl _
  · intro n _ ih
    have hs := sIdx_step n
    have hd := daysInMonth_bounds (n / 12) (n % 12 + 1)
    omega

theorem sIdx_eq (y m : Int) (h1 : 1 ≤ m) (h2 : m ≤ 12) :
    sIdx (12*y + m - 1) = toOrdinal y m 1 := by
  unfold sIdx
  have e1 : (12*y + m - 1) / 12 = y := by omega
  have e2 : (12*y + m - 1) % 12 + 1 = m := by omega
  rw [e1, e2]

theorem ymIdx_ord_mono {o o' : Int} (h : o ≤ o') :
    12 * (ord2ymd o).1 + (ord2ymd o).2.1 ≤ 12 * (ord2ymd o').1 + (ord2ymd o').2.1 := by
  by_contra hlt
  push_neg at hlt
  obtain ⟨hm1, hm2, hd1, hd2, hrt⟩ := ord2ymd_valid o
  obtain ⟨hm1', hm2', hd1', hd2', hrt'⟩ := ord2ymd_valid o'
  set y := (ord2ymd o).1 with hy
  set m := (ord2ymd o).2.1 with hm
  set d := (ord2ymd o).2.2 with hd
  set y' := (ord2ymd o').1 with hy'
  set m' := (ord2ymd o').2.1 with hm'
  set d' := (ord2ymd o').2.2 with hd'
  -- o sits at or after the first day of its month
  have hlow : sIdx (12*y + m - 1) ≤ o := by
    rw [sIdx_eq y m hm1 hm2]
    have := toOrdinal_day y m d
    omega
  -- o' sits strictly before the first day of the next month
  have hstep : sIdx (12*y' + m' - 1 + 1) = sIdx (12*y' + m' - 1) + daysInMonth y' m' := by
    have h1 : (12*y' + m' - 1) / 12 = y' := by omega
    have h2 : (12*y' + m' - 1) % 12 + 1 = m' := by omega
    have := sIdx_step (12*y' + m' - 1)
    rw [h1, h2] at this
    exact this
  have hhigh : o' < sIdx (12*y' + m' - 1 + 1) := by
    rw [hstep, sIdx_eq y' m' hm1' hm2']
    have := toOrdinal_day y' m' d'
    omega
  have hmono : sIdx (12*y' + m' - 1 + 1) ≤ sIdx (12*y + m - 1) := sIdx_mono (by omega)
  omega

theorem monthOfTs_range (t : Int) : 1 ≤ monthOfTs t ∧ monthOfTs t ≤ 12 := by
  obtain ⟨h1, h2, _⟩ := ord2ymd_valid (t / 86400)
  exact ⟨h1, h2⟩

theorem ymIdxTs_mono {t t' : Int} (h : t ≤ t') :
    12 * yearOfTs t + monthOfTs t ≤ 12 * yearOfTs t' + monthOfTs t' := by
  unfold yearOfTs monthOfTs
  exact ymIdx_ord_mono (by omega)

/-- Two timestamps agreeing in year and month have equal month indices; with
the month ranges this pins the pair down. -/
theorem ym_eq_of_between {a b t : Int} (hab : a ≤ b)
    (hat : a ≤ t) (htb : t ≤ b)
    (hy : yearOfTs a = yearOfTs b) (hm : monthOfTs a = monthOfTs b) :
    yearOfTs t = yearOfTs a ∧ monthOfTs t = monthOfTs a := by
  have h1 := ymIdxTs_mono hat
  have h2 := ymIdxTs_mono htb
  have r1 := monthOfTs_range a
  have r2 := monthOfTs_range t
  omega

/-- Claim C4 counterexample: the notebook's shift is not parametric in a
caller-supplied `weeks`; it does not agree with the spec's Window Shifter
contract at `weeks = 1`. -/
theorem C4_counterexample :
    ¬ (∀ w : Int, 0 < w → historicalBounds 0 86400 = windowShiftSpec 0 86400 w) := by
  intro hall
  have h1 := hall 1 (by norm_num)
  have : historicalBounds 0 86400 ≠ windowShiftSpec 0 86400 1 := by decide
  exact this h1

/-- Claim C4 (amended): the weeks offset is hardcoded to 52, both bounds are
shifted earlier by exactly 52*7 = 364 days, and the concrete example
shift("2025-03-04", "2025-04-01") yields ("2024-03-05", "2024-04-02"). -/
theorem C4_shift_by_364_days :
    (∀ f t : Int, historicalBounds f t = windowShiftSpec f t 52) ∧
    (∃ f t f' t' : Int,
      fromisoformat "2025-03-04" = some f ∧ fromisoformat "2025-04-01" = some t ∧
      fromisoformat "2024-03-05" = some f' ∧ fromisoformat "2024-04-02" = some t' ∧
      historicalBounds f t = (f', t') ∧ f - f' = 364 * 86400 ∧ t - t' = 364 * 86400) := by
  constructor
  · intro f t
    unfold historicalBounds windowShiftSpec shiftBackWeeks weeksOffset
    norm_num
  · refine ⟨toOrdinal 2025 3 4 * 86400, toOrdinal 2025 4 1 * 86400,
      toOrdinal 2024 3 5 * 86400, toOrdinal 2024 4 2 * 86400, ?_, ?_, ?_, ?_, ?_, ?_, ?_⟩
    · decide
    · decide
    · decide
    · decide
    · decide
    · decide
    · decide

/-- Claim C7: shifting the window back by `w` weeks and then forward by `w`
weeks is the identity, both on the window bounds and on any event
timestamp. -/
theorem C7_roundtrip (f t w : Int) (h : f < t) :
    (shiftForwardWeeks w (shiftBackWeeks w f), shiftForwardWeeks w (shiftBackWeeks w t))
        = (f, t) ∧
    ∀ x : Int, shiftForwardWeeks w (shiftBackWeeks w x) = x := by
  unfold shiftForwardWeeks shiftBackWeeks
  constructor
  · norm_num
  · intro x; ring

theorem C7_roundtrip_witness :
    ((0 : Int) < 86400) ∧
    ((shiftForwardWeeks 52 (shiftBackWeeks 52 0), shiftForwardWeeks 52 (shiftBackWeeks 52 86400))
        = (0, 86400) ∧
      ∀ x : Int, shiftForwardWeeks 52 (shiftBackWeeks 52 x) = x) :=
  ⟨by norm_num, C7_roundtrip 0 86400 52 (by norm_num)⟩

/-- Claim C5: with `from_date >= to_date` (after parsing), and likewise when
either date string fails to parse, `fetch_batch_raw_data` raises
`ValueError` (modelled as `invalidArgument`) and returns no data. -/
theorem C5_validation_errors (load : Int → Int → List Event) :
    (∀ (s : String) (t : DateInput), fromisoformat s = none →
      fetchBatchRawData load (.str s) t = (.error .invalidArgument, [])) ∧
    (∀ (f : DateInput) (s : String) (a : Int),
      resolveDate f = some a → fromisoformat s = none →
      fetchBatchRawData load f (.str s) = (.error .invalidArgument, [])) ∧
    (∀ (f t : DateInput) (a b : Int),
      resolveDate f = some a → resolveDate t = some b → b ≤ a →
      fetchBatchRawData load f t = (.error .invalidArgument, [])) := by
  refine ⟨?_, ?_, ?_⟩
  · intro s t hs
    unfold fetchBatchRawData
    simp [resolveDate, hs]
  · intro f s a hf hs
    unfold fetchBatchRawData
    rw [hf]
    simp [resolveDate, hs]
  · intro f t a b hf ht hba
    unfold fetchBatchRawData
    rw [hf, ht]
    dsimp only
    rw [if_neg (by omega)]

theorem C5_validation_errors_witness :
    fetchBatchRawData (fun _ _ => []) (.str "2025-02-01") (.str "2025-01-01")
        = (.error .invalidArgument, []) ∧
    fetchBatchRawData (fun _ _ => []) (.str "not-a-date") (.str "2025-01-01")
        = (.error .invalidArgument, []) :=
  ⟨(C5_validation_errors (fun _ _ => [])).2.2 (.str "2025-02-01") (.str "2025-01-01")
      (toOrdinal 2025 2 1 * 86400) (toOrdinal 2025 1 1 * 86400)
      (by decide) (by decide) (by decide),
    (C5_validation_errors (fun _ _ => [])).1 "not-a-date" (.str "2025-01-01") (by decide)⟩

/-- Claim C9: all input validation happens before any loader call, so an
erroring run of `fetch_batch_raw_data` has issued no loader call at all. -/
theorem C9_error_runs_issue_no_loader_calls
    (load : Int → Int → List Event) (f t : DateInput) (e : FetchError)
    (herr : (fetchBatchRawData load f t).1 = .error e) :
    (fetchBatchRawData load f t).2 = [] := by
  unfold fetchBatchRawData at herr ⊢
  cases hrf : resolveDate f with
  | none => rfl
  | some a =>
    rw [hrf] at herr
    cases hrt : resolveDate t with
    | none => rfl
    | some b =>
      rw [hrt] at herr
      dsimp only at herr ⊢
      by_cases hab : a < b
      · rw [if_pos hab] at herr
        exact absurd herr (by simp)
      · rw [if_neg hab]

theorem C9_error_runs_issue_no_loader_calls_witness :
    (fetchBatchRawData (fun _ _ => []) (.str "2025-02-01") (.str "2025-01-01")).2 = [] :=
  C9_error_runs_issue_no_loader_calls (fun _ _ => []) (.str "2025-02-01")
    (.str "2025-01-01") .invalidArgument (by decide)

/-- Every event `c3Loader` returns lies in the requested month. -/
theorem c3Loader_months : ∀ y m e, e ∈ c3Loader y m →
    yearOfTs e.pickup_datetime = y ∧ monthOfTs e.pickup_datetime = m := by
  intro y m e he
  unfold c3Loader at he
  split at he
  · next hc =>
    simp only [List.mem_singleton] at he
    subst he
    refine ⟨?_, ?_⟩
    · rw [hc.1]; decide
    · rw [hc.2]; decide
  · simp at he

/-- Claim C6: a successful run returns exactly the selected historical
events, each with its timestamp advanced by 52*7 days (`relabelEvent`; no
event dropped or added), sorted ascending by
(pickup_location_id, pickup_datetime). -/
theorem C6_relabel_and_sort (load : Int → Int → List Event) (f t : DateInput)
    (out : List Event) (calls : List (Int × Int))
    (hrun : fetchBatchRawData load f t = (.ok out, calls)) :
    ∃ f0 t0 : Int, resolveDate f = some f0 ∧ resolveDate t = some t0 ∧
      out.Perm ((selectHistorical load (historicalBounds f0 t0).1
        (historicalBounds f0 t0).2).map relabelEvent) ∧
      List.Sorted rideLe out := by
  unfold fetchBatchRawData at hrun
  cases hrf : resolveDate f with
  | none => rw [hrf] at hrun; exact absurd hrun (by simp)
  | some f0 =>
    rw [hrf] at hrun
    cases hrt : resolveDate t with
    | none => rw [hrt] at hrun; exact absurd hrun (by simp)
    | some t0 =>
      rw [hrt] at hrun
      dsimp only at hrun
      by_cases hab : f0 < t0
      · rw [if_pos hab] at hrun
        have hout : sortRides ((selectHistorical load (historicalBounds f0 t0).1
            (historicalBounds f0 t0).2).map relabelEvent) = out := by
          have := congrArg Prod.fst hrun
          simpa using this
        refine ⟨f0, t0, rfl, rfl, ?_, ?_⟩
        · rw [← hout]
          exact List.perm_insertionSort rideLe _
        · rw [← hout]
          exact List.sorted_insertionSort rideLe _
      · rw [if_neg hab] at hrun
        exact absurd hrun (by simp)

theorem C6_relabel_and_sort_witness :
    ∃ f0 t0 : Int,
      resolveDate (.str "2025-03-04") = some f0 ∧
      resolveDate (.str "2025-04-02") = some t0 ∧
      List.Perm [(⟨tsOf 2025 3 19 12 0 0, 5⟩ : Event)]
        ((selectHistorical c3Loader (historicalBounds f0 t0).1
          (historicalBounds f0 t0).2).map relabelEvent) ∧
      List.Sorted rideLe [(⟨tsOf 2025 3 19 12 0 0, 5⟩ : Event)] :=
  C6_relabel_and_sort c3Loader (.str "2025-03-04") (.str "2025-04-02")
    [⟨tsOf 2025 3 19 12 0 0, 5⟩] [(2024, 3), (2024, 4)] (by decide)

/-- Claim C3 is violated by the code: in the single-month branch the upper
window bound is never applied.  With the window 2025-03-04 .. 2025-03-10
(historical 2024-03-05 .. 2024-03-11, one calendar month), the loaded event
of 2024-03-20 12:00 passes the lower filter, is never filtered above, and is
returned relabeled to 2025-03-19 12:00, at or beyond `to_date`. -/
theorem C3_single_month_upper_bound_violated :
    (fetchBatchRawData c3Loader (.str "2025-03-04") (.str "2025-03-10")).1
        = .ok [⟨tsOf 2025 3 19 12 0 0, 5⟩] ∧
    fromisoformat "2025-03-10" = some (tsOf 2025 3 10 0 0 0) ∧
    ¬ (tsOf 2025 3 19 12 0 0 < tsOf 2025 3 10 0 0 0) ∧
    ¬ (tsOf 2024 3 20 12 0 0 < (historicalBounds (tsOf 2025 3 4 0 0 0) (tsOf 2025 3 10 0 0 0)).2) := by
  refine ⟨by decide, by decide, by decide, by decide⟩

/-- Claim C10: when the loader returns only events of the requested month,
every event of a successful run is relabeled to a timestamp at or after
`from_date`; the lower bound is enforced in both the single-month and the
two-month branch. -/
theorem C10_lower_bound (load : Int → Int → List Event) (f t : DateInput)
    (out : List Event) (calls : List (Int × Int)) (f0 : Int)
    (hload : ∀ y m e, e ∈ load y m →
      yearOfTs e.pickup_datetime = y ∧ monthOfTs e.pickup_datetime = m)
    (hf0 : resolveDate f = some f0)
    (hrun : fetchBatchRawData load f t = (.ok out, calls)) :
    ∀ e ∈ out, f0 ≤ e.pickup_datetime := by
  unfold fetchBatchRawData at hrun
  rw [hf0] at hrun
  cases hrt : resolveDate t with
  | none => rw [hrt] at hrun; exact absurd hrun (by simp)
  | some t0 =>
    rw [hrt] at hrun
    dsimp only at hrun
    by_cases hab : f0 < t0
    · rw [if_pos hab] at hrun
      have hout : sortRides ((selectHistorical load (historicalBounds f0 t0).1
          (historicalBounds f0 t0).2).map relabelEvent) = out := by
        have := congrArg Prod.fst hrun
        simpa using this
      intro e he
      have he2 : e ∈ (selectHistorical load (historicalBounds f0 t0).1
          (historicalBounds f0 t0).2).map relabelEvent := by
        rw [← hout] at he
        have hperm := List.perm_insertionSort rideLe
          ((selectHistorical load (historicalBounds f0 t0).1
            (historicalBounds f0 t0).2).map relabelEvent)
        exact hperm.mem_iff.mp he
      obtain ⟨e', he', rfl⟩ := List.mem_map.mp he2
      suffices h : (historicalBounds f0 t0).1 ≤ e'.pickup_datetime by
        unfold historicalBounds shiftBackWeeks weeksOffset at h
        unfold relabelEvent shiftForwardWeeks weeksOffset
        dsimp only
        omega
      unfold selectHistorical at he'
      by_cases hmo : monthOfTs (historicalBounds f0 t0).2 ≠ monthOfTs (historicalBounds f0 t0).1
      · rw [if_pos hmo] at he'
        rcases List.mem_append.mp he' with hA | hB
        · have := List.mem_filter.mp hA
          simpa using this.2
        · obtain ⟨heL, _⟩ := List.mem_filter.mp hB
          obtain ⟨hy, hm⟩ := hload _ _ _ heL
          by_contra hle
          push_neg at hle
          have hfht : (historicalBounds f0 t0).1 ≤ (historicalBounds f0 t0).2 := by
            unfold historicalBounds shiftBackWeeks weeksOffset
            dsimp only
            omega
          have h1 := ymIdxTs_mono (le_of_lt hle)
          have h2 := ymIdxTs_mono hfht
          have r1 := monthOfTs_range (historicalBounds f0 t0).1
          have r2 := monthOfTs_range (historicalBounds f0 t0).2
          omega
      · rw [if_neg hmo] at he'
        have := List.mem_filter.mp he'
        simpa using this.2
    · rw [if_neg hab] at hrun
      exact absurd hrun (by simp)

theorem C10_lower_bound_witness :
    tsOf 2025 3 4 0 0 0 ≤ (⟨tsOf 2025 3 19 12 0 0, 5⟩ : Event).pickup_datetime :=
  C10_lower_bound c3Loader (.str "2025-03-04") (.str "2025-04-02")
    [⟨tsOf 2025 3 19 12 0 0, 5⟩] [(2024, 3), (2024, 4)] (tsOf 2025 3 4 0 0 0)
    c3Loader_months (by decide) (by decide)
    ⟨tsOf 2025 3 19 12 0 0, 5⟩ (by decide)

/-- Claim C8: the empty input aggregates to the empty series without error,
and the transform fails (with InvalidArgument) exactly when a required
column is missing. -/
theorem C8_empty_input_and_failure_modes :
    (∀ cols : List String, requiredCols.all (fun c => cols.contains c) = true →
      transform_raw_data_into_ts_data ⟨cols, []⟩ = .ok []) ∧
    (∀ df : RawFrame, (∃ err, transform_raw_data_into_ts_data df = .error err) ↔
      ¬ requiredCols.all (fun c => df.cols.contains c) = true) ∧
    (∀ df : RawFrame, requiredCols.all (fun c => df.cols.contains c) = false →
      transform_raw_data_into_ts_data df = .error .invalidArgument) := by
  refine ⟨?_, ?_, ?_⟩
  · intro cols hc
    unfold transform_raw_data_into_ts_data
    rw [if_pos hc]
    rfl
  · intro df
    unfold transform_raw_data_into_ts_data
    by_cases hc : requiredCols.all (fun c => df.cols.contains c) = true
    · rw [if_pos hc]
      constructor
      · rintro ⟨err, herr⟩
        exact absurd herr (by simp)
      · intro hcontra
        exact absurd hc hcontra
    · rw [if_neg hc]
      exact ⟨fun _ => hc, fun _ => ⟨.invalidArgument, rfl⟩⟩
  · intro df hc
    unfold transform_raw_data_into_ts_data
    rw [if_neg (by rw [hc]; simp)]

theorem C8_empty_input_witness :
    transform_raw_data_into_ts_data ⟨requiredCols, []⟩ = .ok [] :=
  C8_empty_input_and_failure_modes.1 requiredCols (by decide)

theorem sum_map_add_nat {α : Type} (l : List α) (f g : α → Nat) :
    (l.map fun x => f x + g x).sum = (l.map f).sum + (l.map g).sum := by
  induction l with
  | nil => simp
  | cons x xs ih => simp [ih]; ring

theorem sum_indicator_zero {κ : Type} [DecidableEq κ] (k : κ) (ks : List κ)
    (hk : k ∉ ks) : (ks.map fun x => if k = x then (1 : Nat) else 0).sum = 0 := by
  induction ks with
  | nil => simp
  | cons x xs ih =>
    have hne : k ≠ x := fun hc => hk (hc ▸ List.mem_cons_self x xs)
    have hk2 : k ∉ xs := fun hc => hk (List.mem_cons_of_mem _ hc)
    simp [hne, ih hk2]

theorem sum_indicator_one {κ : Type} [DecidableEq κ] (k : κ) (ks : List κ)
    (hnd : ks.Nodup) (hk : k ∈ ks) :
    (ks.map fun x => if k = x then (1 : Nat) else 0).sum = 1 := by
  induction ks with
  | nil => exact absurd hk (by simp)
  | cons x xs ih =>
    rcases List.mem_cons.mp hk with rfl | hk2
    · have hk2 : k ∉ xs := (List.nodup_cons.mp hnd).1
      simp [sum_indicator_zero k xs hk2]
    · have hne : k ≠ x := fun hc => (List.nodup_cons.mp hnd).1 (hc ▸ hk2)
      simp [hne, ih (List.nodup_cons.mp hnd).2 hk2]

theorem countP_partition {α κ : Type} [DecidableEq κ] (key : α → κ) (es : List α) :
    ∀ ks : List κ, ks.Nodup → (∀ e ∈ es, key e ∈ ks) →
      (ks.map fun k => es.countP fun e => key e = k).sum = es.length := by
  induction es with
  | nil => intro ks _ _; simp
  | cons e es ih =>
    intro ks hnd hcov
    have hcov' : ∀ x ∈ es, key x ∈ ks := fun x hx => hcov x (List.mem_cons_of_mem _ hx)
    have hke : key e ∈ ks := hcov e (List.mem_cons_self e es)
    have hstep : ∀ k : κ, ((e :: es).countP fun x => key x = k) =
        (es.countP fun x => key x = k) + (if key e = k then 1 else 0) := by
      intro k
      rw [List.countP_cons]
      by_cases hek : key e = k <;> simp [hek]
    simp only [hstep]
    rw [sum_map_add_nat, ih ks hnd hcov', sum_indicator_one (key e) ks hnd hke]
    simp

theorem foldl_min_le_init : ∀ (l : List Int) (a : Int), l.foldl min a ≤ a
  | [], a => le_refl a
  | x :: l, a => (foldl_min_le_init l (min a x)).trans (min_le_left a x)

theorem foldl_min_le_mem : ∀ (l : List Int) (a x : Int), x ∈ l → l.foldl min a ≤ x
  | y :: l, a, x, h => by
    rcases List.mem_cons.mp h with rfl | h2
    · exact (foldl_min_le_init l (min a x)).trans (min_le_right a x)
    · exact foldl_min_le_mem l (min a y) x h2

theorem foldl_min_attains : ∀ (l : List Int) (a : Int), l.foldl min a = a ∨ l.foldl min a ∈ l
  | [], _ => Or.inl rfl
  | x :: l, a => by
    rcases foldl_min_attains l (min a x) with h | h
    · rcases min_choice a x with h2 | h2
      · exact Or.inl (by rw [List.foldl_cons, h, h2])
      · exact Or.inr (by rw [List.foldl_cons, h, h2]; exact List.mem_cons_self x l)
    · exact Or.inr (List.mem_cons_of_mem _ h)

theorem foldl_max_ge_init : ∀ (l : List Int) (a : Int), a ≤ l.foldl max a
  | [], a => le_refl a
  | x :: l, a => (le_max_left a x).trans (foldl_max_ge_init l (max a x))

theorem foldl_max_ge_mem : ∀ (l : List Int) (a x : Int), x ∈ l → x ≤ l.foldl max a
  | y :: l, a, x, h => by
    rcases List.mem_cons.mp h with rfl | h2
    · exact (le_max_right a x).trans (foldl_max_ge_init l (max a x))
    · exact foldl_max_ge_mem l (max a y) x h2

theorem foldl_max_attains : ∀ (l : List Int) (a : Int), l.foldl max a = a ∨ l.foldl max a ∈ l
  | [], _ => Or.inl rfl
  | x :: l, a => by
    rcases foldl_max_attains l (max a x) with h | h
    · rcases max_choice a x with h2 | h2
      · exact Or.inl (by rw [List.foldl_cons, h, h2])
      · exact Or.inr (by rw [List.foldl_cons, h, h2]; exact List.mem_cons_self x l)
    · exact Or.inr (List.mem_cons_of_mem _ h)

theorem floorHour_dvd (t : Int) : 3600 ∣ floorHour t := Dvd.intro _ rfl

theorem minHourOf_le (e : Event) (es : List Event) :
    minHourOf e es ≤ floorHour e.pickup_datetime ∧
      ∀ x ∈ es, minHourOf e es ≤ floorHour x.pickup_datetime := by
  refine ⟨foldl_min_le_init _ _, fun x hx => ?_⟩
  exact foldl_min_le_mem _ _ _ (List.mem_map_of_mem _ hx)

theorem maxHourOf_ge (e : Event) (es : List Event) :
    floorHour e.pickup_datetime ≤ maxHourOf e es ∧
      ∀ x ∈ es, floorHour x.pickup_datetime ≤ maxHourOf e es := by
  refine ⟨foldl_max_ge_init _ _, fun x hx => ?_⟩
  exact foldl_max_ge_mem _ _ _ (List.mem_map_of_mem _ hx)

theorem minHourOf_dvd (e : Event) (es : List Event) : 3600 ∣ minHourOf e es := by
  rcases foldl_min_attains (hoursOf es) (floorHour e.pickup_datetime) with h | h
  · rw [minHourOf, h]; exact floorHour_dvd _
  · obtain ⟨x, _, hx⟩ := List.mem_map.mp h
    rw [minHourOf, ← hx]
    exact floorHour_dvd _

theorem maxHourOf_dvd (e : Event) (es : List Event) : 3600 ∣ maxHourOf e es := by
  rcases foldl_max_attains (hoursOf es) (floorHour e.pickup_datetime) with h | h
  · rw [maxHourOf, h]; exact floorHour_dvd _
  · obtain ⟨x, _, hx⟩ := List.mem_map.mp h
    rw [maxHourOf, ← hx]
    exact floorHour_dvd _

theorem mem_hourSteps : ∀ (n : Nat) (start h : Int),
    h ∈ hourSteps n start ↔ ∃ i : Nat, i ≤ n ∧ h = start + 3600 * i := by
  intro n
  induction n with
  | zero =>
    intro start h
    simp only [hourSteps, List.mem_singleton]
    constructor
    · rintro rfl
      exact ⟨0, le_refl 0, by ring⟩
    · rintro ⟨i, hi, rfl⟩
      interval_cases i
      ring
  | succ n ih =>
    intro start h
    simp only [hourSteps, List.mem_cons, ih]
    constructor
    · rintro (rfl | ⟨i, hi, rfl⟩)
      · exact ⟨0, by omega, by ring⟩
      · exact ⟨i + 1, by omega, by push_cast; ring⟩
    · rintro ⟨i, hi, rfl⟩
      cases i with
      | zero => exact Or.inl (by ring)
      | succ j => exact Or.inr ⟨j, by omega, by push_cast; ring⟩

theorem mem_hourGrid {minH maxH h : Int} (hle : minH ≤ maxH) (hd : 3600 ∣ maxH - minH) :
    h ∈ hourGrid minH maxH ↔ minH ≤ h ∧ h ≤ maxH ∧ 3600 ∣ h - minH := by
  unfold hourGrid
  rw [mem_hourSteps]
  obtain ⟨k, hk⟩ := hd
  constructor
  · rintro ⟨i, hi, rfl⟩
    refine ⟨by omega, by omega, by omega⟩
  · rintro ⟨h1, h2, h3⟩
    obtain ⟨j, hj⟩ := h3
    exact ⟨j.toNat, by omega, by omega⟩

theorem mem_locList {rows : List Event} {ℓ : Int} :
    ℓ ∈ locList rows ↔ ℓ ∈ rows.map fun e => e.pickup_location_id := by
  unfold locList
  rw [(List.perm_insertionSort _ _).mem_iff, List.mem_dedup]

theorem locList_nodup (rows : List Event) : (locList rows).Nodup :=
  (List.perm_insertionSort _ _).nodup_iff.mpr (List.nodup_dedup _)

theorem locList_pairwise_lt (rows : List Event) : (locList rows).Pairwise (· < ·) := by
  have hs : (locList rows).Pairwise (· ≤ ·) := List.sorted_insertionSort _ _
  have hn : (locList rows).Pairwise (· ≠ ·) := locList_nodup rows
  exact (hs.and hn).imp fun hab => lt_of_le_of_ne hab.1 hab.2

theorem hourSteps_pairwise_lt : ∀ (n : Nat) (start : Int),
    (hourSteps n start).Pairwise (· < ·) := by
  intro n
  induction n with
  | zero => intro start; simp [hourSteps]
  | succ n ih =>
    intro start
    refine List.pairwise_cons.mpr ⟨?_, ih (start + 3600)⟩
    intro h hmem
    obtain ⟨i, _, rfl⟩ := (mem_hourSteps n (start + 3600) h).mp hmem
    omega

theorem hourGrid_pairwise_lt (minH maxH : Int) :
    (hourGrid minH maxH).Pairwise (· < ·) := hourSteps_pairwise_lt _ _

theorem hourLoc_pairs_nodup (rows : List Event) (minH maxH : Int) :
    ((locList rows).flatMap fun ℓ =>
      (hourGrid minH maxH).map fun h => (h, ℓ)).Nodup := by
  rw [List.nodup_flatMap]
  constructor
  · intro ℓ _
    refine List.Nodup.map ?_ ?_
    · intro a b hab
      simpa using congrArg Prod.fst hab
    · exact (hourGrid_pairwise_lt minH maxH).imp ne_of_lt
  · refine (locList_pairwise_lt rows).imp ?_
    intro a b hab
    intro p hpa hpb
    obtain ⟨h1, _, rfl⟩ := List.mem_map.mp hpa
    obtain ⟨h2, _, hp2⟩ := List.mem_map.mp hpb
    have := congrArg Prod.snd hp2
    simp at this
    omega

theorem event_key_covered (e : Event) (es : List Event) (x : Event)
    (hx : x ∈ e :: es) :
    eventKey x ∈ (locList (e :: es)).flatMap fun ℓ =>
      (hourGrid (minHourOf e es) (maxHourOf e es)).map fun h => (h, ℓ) := by
  rw [List.mem_flatMap]
  refine ⟨x.pickup_location_id, mem_locList.mpr (List.mem_map_of_mem _ hx), ?_⟩
  rw [List.mem_map]
  refine ⟨floorHour x.pickup_datetime, ?_, rfl⟩
  have hmin := minHourOf_le e es
  have hmax := maxHourOf_ge e es
  have hdmin := minHourOf_dvd e es
  have hdmax := maxHourOf_dvd e es
  have hfd := floorHour_dvd x.pickup_datetime
  have hle : minHourOf e es ≤ maxHourOf e es := hmin.1.trans hmax.1
  have hbounds : minHourOf e es ≤ floorHour x.pickup_datetime ∧
      floorHour x.pickup_datetime ≤ maxHourOf e es := by
    rcases List.mem_cons.mp hx with rfl | hx2
    · exact ⟨hmin.1, hmax.1⟩
    · exact ⟨hmin.2 x hx2, hmax.2 x hx2⟩
  rw [mem_hourGrid hle (by omega)]
  exact ⟨hbounds.1, hbounds.2, by omega⟩

/-- Claim C2: summing the aggregated counts over all buckets gives back the
total number of input events; duplicates each contribute one. -/
theorem C2_conservation (cols : List String) (rows : List Event) (out : List TsRow)
    (hrun : transform_raw_data_into_ts_data ⟨cols, rows⟩ = .ok out) :
    (out.map fun r => r.rides).sum = rows.length := by
  unfold transform_raw_data_into_ts_data at hrun
  split at hrun
  · have hout : aggregateRows rows = out := by
      injection hrun
    subst hout
    cases rows with
    | nil => simp [aggregateRows]
    | cons e es =>
      show ((aggregateRows (e :: es)).map fun r => r.rides).sum = (e :: es).length
      have hmap : (aggregateRows (e :: es)).map (fun r => r.rides) =
          ((locList (e :: es)).flatMap fun ℓ =>
            (hourGrid (minHourOf e es) (maxHourOf e es)).map fun h => (h, ℓ)).map
              fun p => (e :: es).countP fun x => eventKey x = p := by
        show ((locList (e :: es)).flatMap fun ℓ =>
            (hourGrid (minHourOf e es) (maxHourOf e es)).map fun h =>
              (⟨h, ℓ, bucketCount (e :: es) h ℓ⟩ : TsRow)).map (fun r => r.rides) = _
        rw [List.map_flatMap, List.map_flatMap]
        simp only [List.map_map]
        rfl
      rw [hmap]
      exact countP_partition eventKey (e :: es) _
        (hourLoc_pairs_nodup (e :: es) _ _)
        (fun x hx => event_key_covered e es x hx)
  · exact absurd hrun (by simp)

theorem C2_conservation_witness :
    ((aggregateRows [⟨tsOf 2025 2 4 6 8 40, 3⟩, ⟨tsOf 2025 2 4 6 47 0, 3⟩,
        ⟨tsOf 2025 2 4 7 15 0, 5⟩]).map fun r => r.rides).sum = 3 :=
  C2_conservation requiredCols
    [⟨tsOf 2025 2 4 6 8 40, 3⟩, ⟨tsOf 2025 2 4 6 47 0, 3⟩, ⟨tsOf 2025 2 4 7 15 0, 5⟩]
    (aggregateRows [⟨tsOf 2025 2 4 6 8 40, 3⟩, ⟨tsOf 2025 2 4 6 47 0, 3⟩,
      ⟨tsOf 2025 2 4 7 15 0, 5⟩])
    (by rfl)

theorem aggregate_blocks_pairwise (rows : List Event) (minH maxH : Int) :
    ∀ locs : List Int, locs.Pairwise (· < ·) →
      (locs.flatMap fun ℓ => (hourGrid minH maxH).map fun h =>
        (⟨h, ℓ, bucketCount rows h ℓ⟩ : TsRow)).Pairwise rowLt := by
  intro locs
  induction locs with
  | nil => intro _; simp
  | cons ℓ ls ih =>
    intro hp
    rw [List.flatMap_cons, List.pairwise_append]
    obtain ⟨hhead, htail⟩ := List.pairwise_cons.mp hp
    refine ⟨?_, ih htail, ?_⟩
    · rw [List.pairwise_map]
      refine (hourGrid_pairwise_lt minH maxH).imp ?_
      intro a b hab
      exact Or.inr ⟨rfl, hab⟩
    · intro r1 h1 r2 h2
      obtain ⟨ha, _, rfl⟩ := List.mem_map.mp h1
      obtain ⟨ℓ2, hl2, hr2⟩ := List.mem_flatMap.mp h2
      obtain ⟨hb, _, rfl⟩ := List.mem_map.mp hr2
      exact Or.inl (hhead ℓ2 hl2)

/-- Claim C1: for non-empty input the aggregated output is strictly sorted
by (location_id, hour) — so each pair occurs exactly once — its key set is
exactly the dense cross-product of the hour range with the observed
location ids, every row carries its bucket's count, and a bucket without
events carries count 0. -/
theorem C1_dense_sorted_grid (cols : List String) (e : Event) (es : List Event)
    (out : List TsRow)
    (hrun : transform_raw_data_into_ts_data ⟨cols, e :: es⟩ = .ok out) :
    out.Pairwise rowLt ∧
    (∀ h ℓ : Int,
      (h, ℓ) ∈ out.map (fun r => (r.pickup_hour, r.pickup_location_id)) ↔
        (minHourOf e es ≤ h ∧ h ≤ maxHourOf e es ∧ 3600 ∣ h - minHourOf e es ∧
          ℓ ∈ (e :: es).map fun x => x.pickup_location_id)) ∧
    (∀ r ∈ out, r.rides = bucketCount (e :: es) r.pickup_hour r.pickup_location_id) ∧
    (∀ r ∈ out, (∀ x ∈ e :: es, ¬ (floorHour x.pickup_datetime = r.pickup_hour ∧
        x.pickup_location_id = r.pickup_location_id)) → r.rides = 0) := by
  unfold transform_raw_data_into_ts_data at hrun
  split at hrun
  case isFalse => exact absurd hrun (by simp)
  case isTrue =>
  have hout : aggregateRows (e :: es) = out := by injection hrun
  subst hout
  have hmin := minHourOf_le e es
  have hmax := maxHourOf_ge e es
  have hle : minHourOf e es ≤ maxHourOf e es := hmin.1.trans hmax.1
  have hdvd : 3600 ∣ maxHourOf e es - minHourOf e es := by
    have h1 := minHourOf_dvd e es
    have h2 := maxHourOf_dvd e es
    omega
  refine ⟨?_, ?_, ?_, ?_⟩
  · exact aggregate_blocks_pairwise (e :: es) _ _ (locList (e :: es))
      (locList_pairwise_lt (e :: es))
  · intro h ℓ
    have hkeys : (aggregateRows (e :: es)).map
        (fun r => (r.pickup_hour, r.pickup_location_id)) =
        (locList (e :: es)).flatMap fun ℓ2 =>
          (hourGrid (minHourOf e es) (maxHourOf e es)).map fun h2 => (h2, ℓ2) := by
      show ((locList (e :: es)).flatMap fun ℓ2 =>
          (hourGrid (minHourOf e es) (maxHourOf e es)).map fun h2 =>
            (⟨h2, ℓ2, bucketCount (e :: es) h2 ℓ2⟩ : TsRow)).map
          (fun r => (r.pickup_hour, r.pickup_location_id)) = _
      rw [List.map_flatMap]
      simp only [List.map_map]
      rfl
    rw [hkeys]
    constructor
    · intro hmem
      obtain ⟨ℓ2, hl2, hmem2⟩ := List.mem_flatMap.mp hmem
      obtain ⟨h2, hh2, heq⟩ := List.mem_map.mp hmem2
      obtain ⟨rfl, rfl⟩ : h2 = h ∧ ℓ2 = ℓ := by
        constructor
        · simpa using congrArg Prod.fst heq
        · simpa using congrArg Prod.snd heq
      have := (mem_hourGrid hle hdvd).mp hh2
      exact ⟨this.1, this.2.1, this.2.2, mem_locList.mp hl2⟩
    · rintro ⟨h1, h2, h3, h4⟩
      rw [List.mem_flatMap]
      refine ⟨ℓ, mem_locList.mpr h4, ?_⟩
      rw [List.mem_map]
      exact ⟨h, (mem_hourGrid hle hdvd).mpr ⟨h1, h2, h3⟩, rfl⟩
  · intro r hr
    obtain ⟨ℓ2, _, hmem2⟩ := List.mem_flatMap.mp hr
    obtain ⟨h2, _, rfl⟩ := List.mem_map.mp hmem2
    rfl
  · intro r hr hno
    obtain ⟨ℓ2, _, hmem2⟩ := List.mem_flatMap.mp hr
    obtain ⟨h2, _, rfl⟩ := List.mem_map.mp hmem2
    show bucketCount (e :: es) h2 ℓ2 = 0
    unfold bucketCount
    rw [List.countP_eq_zero]
    intro x hx
    have := hno x hx
    simp only [eventKey, Prod.mk.injEq, decide_eq_true_eq]
    intro hcontra
    exact this ⟨hcontra.1, hcontra.2⟩

theorem C1_dense_sorted_grid_witness :
    (aggregateRows [⟨tsOf 2025 2 4 6 8 40, 3⟩, ⟨tsOf 2025 2 4 6 47 0, 3⟩,
      ⟨tsOf 2025 2 4 7 15 0, 5⟩]).Pairwise rowLt :=
  (C1_dense_sorted_grid requiredCols ⟨tsOf 2025 2 4 6 8 40, 3⟩
    [⟨tsOf 2025 2 4 6 47 0, 3⟩, ⟨tsOf 2025 2 4 7 15 0, 5⟩]
    (aggregateRows [⟨tsOf 2025 2 4 6 8 40, 3⟩, ⟨tsOf 2025 2 4 6 47 0, 3⟩,
      ⟨tsOf 2025 2 4 7 15 0, 5⟩]) (by rfl)).1
